import Mathlib

/-!
Verification of the elementary-row-operation library (`nalgebra_lineq`).

The library applies elementary row operations (row exchange, scaled row
addition, row scaling) to a matrix held by a thin owning wrapper.  Each
operation is a parameter object implementing a three-method contract:
a pure `validate`, a precondition-bearing `perform_unchecked` that mutates
the matrix column by column, and a derived `perform` that validates and then
mutates.

A matrix is modelled as the list of its rows; the unchecked entry
read / write / swap primitives that the source obtains from the matrix
collaborator are modelled with `Option`-valued reads (an out-of-range
access, undefined behaviour in the source, leaves the matrix unchanged in
the model), and the column loops are modelled as left folds over
`List.range (ncols m)`, reading the column count once before the loop just
as the source does.
-/

namespace NalgebraLineq

/-- A matrix, modelled as the list of its rows. -/
abbrev Mat (T : Type) : Type := List (List T)

/-- Number of rows, as returned by the matrix collaborator. -/
def nrows {T : Type} (m : Mat T) : Nat := m.length

/-- Number of columns, as returned by the matrix collaborator.  For the
well-formed (rectangular) lists that model real matrices this is the length
of every row; it is read off the first row. -/
def ncols {T : Type} (m : Mat T) : Nat := ((m[0]?).getD []).length

/-- Unchecked entry read: `m[(i, j)]`, `None` when out of range. -/
def getE {T : Type} (m : Mat T) (i j : Nat) : Option T :=
  (m[i]?).bind (fun r => r[j]?)

/-- Unchecked entry write: `*m.get_unchecked_mut((i, j)) = v`; out-of-range
writes leave the matrix unchanged (the source makes them undefined
behaviour). -/
def setE {T : Type} (m : Mat T) (i j : Nat) (v : T) : Mat T :=
  m.set i (((m[i]?).getD []).set j v)

/-- Unchecked entry-pair swap, the `swap_unchecked` primitive used by row
exchange. -/
def swapE {T : Type} (m : Mat T) (i1 j1 i2 j2 : Nat) : Mat T :=
  match getE m i1 j1, getE m i2 j2 with
  | some a, some b => setE (setE m i1 j1 b) i2 j2 a
  | _, _ => m

/-- Error for the two-index operations (`row_xchg`, `row_add`), mirroring
`BinaryRowIdxOutOfBoundsError` of `err.rs`. -/
inductive BinaryRowIdxOutOfBoundsError : Type where
  | FirstIdxOutOfBounds : Nat × Nat → BinaryRowIdxOutOfBoundsError
  | SecondIdxOutOfBounds : Nat × Nat → BinaryRowIdxOutOfBoundsError
  | BothIdcesOutOfBounds : Nat × Nat → BinaryRowIdxOutOfBoundsError
deriving DecidableEq

/-- Error for the single-index operation (`row_mul`), mirroring
`RowIdxOutOfBoundsError` of `err.rs`. -/
structure RowIdxOutOfBoundsError : Type where
  idx : Nat
deriving DecidableEq

/-- Parameter object of row exchange (`param_obj.rs`). -/
structure RowXchg : Type where
  row_zbi_1 : Nat
  row_zbi_2 : Nat

/-- Parameter object of row addition (`row_add.rs`); `factor` is the scalar
the in-row is scaled by before summation. -/
structure RowAdd (T : Type) : Type where
  inout_row_zbi : Nat
  in_row_zbi : Nat
  factor : T

/-- Parameter object of row scaling (`row_mul.rs`). -/
structure RowMul (T : Type) : Type where
  row_zbi : Nat
  factor : T

/-- One column step of `row_xchg_unchecked`: swap the two entries of column
`j` (`row_xchg.rs`, the body of the `for_each`). -/
def rowXchgStep {T : Type} (i1 i2 : Nat) (acc : Mat T) (j : Nat) : Mat T :=
  swapE acc i1 j i2 j

/-- `RowXchg::perform_unchecked` / `MatrixReprOfLinSys::row_xchg_unchecked`:
for every column `j` in `0..ncols`, swap the entries `(i1, j)` and
`(i2, j)`. -/
def RowXchg.perform_unchecked {T : Type} (po : RowXchg) (m : Mat T) : Mat T :=
  (List.range (ncols m)).foldl (rowXchgStep po.row_zbi_1 po.row_zbi_2) m

/-- `MatrixReprOfLinSys::row_xchg` validation (`row_xchg.rs` lines 103-107),
the guarded match on `(i_1, i_2)` against `nrows`. -/
def RowXchg.validate {T : Type} (po : RowXchg) (m : Mat T) :
    Option BinaryRowIdxOutOfBoundsError :=
  let i_1 := po.row_zbi_1
  let i_2 := po.row_zbi_2
  let nr := nrows m
  if i_1 ≥ nr ∧ i_2 ≥ nr then some (.BothIdcesOutOfBounds (i_1, i_2))
  else if i_1 ≥ nr then some (.FirstIdxOutOfBounds (i_1, i_2))
  else if i_2 ≥ nr then some (.SecondIdxOutOfBounds (i_1, i_2))
  else none

/-- `ElemRowOp::perform` specialised to row exchange: validate, and on
success run the unchecked mutation.  The pair returns the Rust `Result`
alongside the matrix the caller's binding holds after the call. -/
def RowXchg.perform {T : Type} (po : RowXchg) (m : Mat T) :
    Option BinaryRowIdxOutOfBoundsError × Mat T :=
  match po.validate m with
  | some e => (some e, m)
  | none => (none, po.perform_unchecked m)

/-- One column step of `row_add_unchecked` (`row_add.rs` lines 87-90): clone
the in-row entry of column `j`, scale it by `factor`, and add it into the
inout-row entry of column `j`. -/
def rowAddStep {T : Type} [Mul T] [Add T] (i1 i2 : Nat) (f : T)
    (acc : Mat T) (j : Nat) : Mat T :=
  match getE acc i2 j, getE acc i1 j with
  | some src, some tgt => setE acc i1 j (tgt + src * f)
  | _, _ => acc

/-- `RowAdd::perform_unchecked` / `MatrixReprOfLinSys::row_add_unchecked`:
for every column `j` in `0..ncols`, `m[(i1, j)] += m[(i2, j)] * factor`. -/
def RowAdd.perform_unchecked {T : Type} [Mul T] [Add T] (po : RowAdd T)
    (m : Mat T) : Mat T :=
  (List.range (ncols m)).foldl
    (rowAddStep po.inout_row_zbi po.in_row_zbi po.factor) m

/-- `RowAdd::validate` (`row_add.rs` lines 93-109): the factor is
destructured but unused; the guarded match classifies the index pair
against `nrows`. -/
def RowAdd.validate {T : Type} (po : RowAdd T) (m : Mat T) :
    Option BinaryRowIdxOutOfBoundsError :=
  let i_1 := po.inout_row_zbi
  let i_2 := po.in_row_zbi
  let nr := nrows m
  if i_1 ≥ nr ∧ i_2 ≥ nr then some (.BothIdcesOutOfBounds (i_1, i_2))
  else if i_1 ≥ nr then some (.FirstIdxOutOfBounds (i_1, i_2))
  else if i_2 ≥ nr then some (.SecondIdxOutOfBounds (i_1, i_2))
  else none

/-- `ElemRowOp::perform` specialised to row addition. -/
def RowAdd.perform {T : Type} [Mul T] [Add T] (po : RowAdd T) (m : Mat T) :
    Option BinaryRowIdxOutOfBoundsError × Mat T :=
  match po.validate m with
  | some e => (some e, m)
  | none => (none, po.perform_unchecked m)

/-- One column step of `row_mul_unchecked` (`row_mul.rs` lines 74-76):
`*m.get_unchecked_mut((i, j)) *= factor`. -/
def rowMulStep {T : Type} [Mul T] (i : Nat) (f : T) (acc : Mat T) (j : Nat) :
    Mat T :=
  match getE acc i j with
  | some v => setE acc i j (v * f)
  | none => acc

/-- `RowMul::perform_unchecked` / `MatrixReprOfLinSys::row_mul_unchecked`:
for every column `j` in `0..ncols`, multiply the entry `(i, j)` in place by
`factor`. -/
def RowMul.perform_unchecked {T : Type} [Mul T] (po : RowMul T) (m : Mat T) :
    Mat T :=
  (List.range (ncols m)).foldl (rowMulStep po.row_zbi po.factor) m

/-- `RowMul::validate` (`row_mul.rs` lines 79-88): a single bound check. -/
def RowMul.validate {T : Type} (po : RowMul T) (m : Mat T) :
    Option RowIdxOutOfBoundsError :=
  if po.row_zbi ≥ nrows m then some ⟨po.row_zbi⟩ else none

/-- `ElemRowOp::perform` specialised to row scaling. -/
def RowMul.perform {T : Type} [Mul T] (po : RowMul T) (m : Mat T) :
    Option RowIdxOutOfBoundsError × Mat T :=
  match po.validate m with
  | some e => (some e, m)
  | none => (none, po.perform_unchecked m)

/-- The owning wrapper `MatrixReprOfLinEq` (`lib.rs` line 10), a tuple
struct around the matrix. -/
structure MatrixReprOfLinEq (T : Type) : Type where
  matrix : Mat T

/-- `MatrixReprOfLinEq::new` (`lib.rs` lines 27-29). -/
def MatrixReprOfLinEq.new {T : Type} (matrix : Mat T) : MatrixReprOfLinEq T :=
  ⟨matrix⟩

/-- `MatrixReprOfLinEq::to_matrix` (`lib.rs` lines 31-33). -/
def MatrixReprOfLinEq.to_matrix {T : Type} (s : MatrixReprOfLinEq T) : Mat T :=
  s.matrix

/-- Two matrices have the same shape: equally many rows, of equal lengths. -/
abbrev sameShape {T : Type} (m1 m2 : Mat T) : Prop :=
  m1.length = m2.length ∧
    ∀ k : Nat, ((m1[k]?).getD []).length = ((m2[k]?).getD []).length

/-- Value held by the inout entry of a column after one row-add step, as a
function of the pre-step inout (`tgt`) and in (`src`) entries of that
column. -/
def addVal {T : Type} [Mul T] [Add T] (f : T) (tgt src : Option T) :
    Option T :=
  match src, tgt with
  | some s, some t => some (t + s * f)
  | _, _ => tgt

/-- Value held by the first-row entry of a column after one swap step. -/
def xchgVal1 {T : Type} (a b : Option T) : Option T :=
  match a, b with
  | some _, some y => some y
  | _, _ => a

/-- Value held by the second-row entry of a column after one swap step. -/
def xchgVal2 {T : Type} (a b : Option T) : Option T :=
  match a, b with
  | some x, some _ => some x
  | _, _ => b

/-- Value held by the scaled entry of a column after one row-mul step. -/
def mulVal {T : Type} [Mul T] (f : T) (a : Option T) : Option T :=
  match a with
  | some v => some (v * f)
  | none => none

/-- An optional list read succeeds exactly when the index is in range. -/
theorem isSome_getElemOpt {α : Type} (l : List α) (n : Nat) :
    (l[n]?).isSome ↔ n < l.length := by
  rcases Nat.lt_or_ge n l.length with h | h
  · rw [List.getElem?_eq_getElem h]
    simp [h]
  · rw [List.getElem?_eq_none h]
    simp
    omega

/-- An entry read succeeds exactly when both indices are in range. -/
theorem getE_isSome_iff {T : Type} (m : Mat T) (i j : Nat) :
    (getE m i j).isSome ↔ i < m.length ∧ j < ((m[i]?).getD []).length := by
  unfold getE
  cases hm : m[i]? with
  | none =>
    have hlen : m.length ≤ i := List.getElem?_eq_none_iff.mp hm
    simp only [Option.none_bind, Option.isSome_none, Bool.false_eq_true,
      false_iff]
    intro hc
    omega
  | some r =>
    obtain ⟨hi, -⟩ := List.getElem?_eq_some_iff.mp hm
    simp only [Option.some_bind, Option.getD_some, isSome_getElemOpt]
    exact ⟨fun h => ⟨hi, h⟩, fun h => h.2⟩

/-- Entry writes preserve the number of rows. -/
theorem length_setE {T : Type} (m : Mat T) (i j : Nat) (v : T) :
    (setE m i j v).length = m.length :=
  List.length_set m i _

/-- Entry writes preserve the length of every row. -/
theorem rowLen_setE {T : Type} (m : Mat T) (i j : Nat) (v : T) (k : Nat) :
    (((setE m i j v)[k]?).getD []).length = ((m[k]?).getD []).length := by
  unfold setE
  by_cases h : i = k
  · subst h
    rw [List.getElem?_set_self']
    cases hm : m[i]? with
    | none => simp
    | some r => simp [List.length_set]
  · rw [List.getElem?_set_ne h]

/-- Writing an in-range entry makes subsequent reads of it return the
written value. -/
theorem getE_setE_same {T : Type} {m : Mat T} {i j : Nat} (v : T)
    (h : (getE m i j).isSome) : getE (setE m i j v) i j = some v := by
  obtain ⟨hi, hj⟩ := (getE_isSome_iff m i j).mp h
  unfold getE setE
  cases hm : m[i]? with
  | none =>
    have hc : m.length ≤ i := List.getElem?_eq_none_iff.mp hm
    exact absurd hi (Nat.not_lt.mpr hc)
  | some r =>
    rw [hm] at hj
    simp only [Option.getD_some] at hj
    simp only [Option.getD_some]
    rw [List.getElem?_set_eq_of_lt _ hi]
    simp only [Option.some_bind]
    exact List.getElem?_set_eq_of_lt _ hj

/-- Writing one entry leaves every other position unchanged. -/
theorem getE_setE_ne {T : Type} (m : Mat T) (i j : Nat) (v : T) (k l : Nat)
    (h : ¬(i = k ∧ j = l)) : getE (setE m i j v) k l = getE m k l := by
  unfold getE setE
  by_cases hik : i = k
  · subst hik
    have hjl : j ≠ l := fun hc => h ⟨rfl, hc⟩
    rw [List.getElem?_set_self']
    cases hm : m[i]? with
    | none => simp
    | some r =>
      simp only [Option.map_some, Option.some_bind, Function.const_apply,
        Option.getD_some, hm]
      exact List.getElem?_set_ne hjl
  · rw [List.getElem?_set_ne hik]

/-- Shape agreement is reflexive. -/
theorem sameShape_refl {T : Type} (m : Mat T) : sameShape m m :=
  ⟨rfl, fun _ => rfl⟩

/-- Shape agreement is transitive. -/
theorem sameShape_trans {T : Type} {m1 m2 m3 : Mat T} (h1 : sameShape m1 m2)
    (h2 : sameShape m2 m3) : sameShape m1 m3 :=
  ⟨h1.1.trans h2.1, fun k => (h1.2 k).trans (h2.2 k)⟩

/-- Entry writes preserve the shape. -/
theorem setE_sameShape {T : Type} (m : Mat T) (i j : Nat) (v : T) :
    sameShape (setE m i j v) m :=
  ⟨length_setE m i j v, rowLen_setE m i j v⟩

/-- Entry swaps preserve the shape. -/
theorem swapE_sameShape {T : Type} (m : Mat T) (i1 j1 i2 j2 : Nat) :
    sameShape (swapE m i1 j1 i2 j2) m := by
  unfold swapE
  cases getE m i1 j1 with
  | none => exact sameShape_refl m
  | some a =>
    cases getE m i2 j2 with
    | none => exact sameShape_refl m
    | some b =>
      exact sameShape_trans (setE_sameShape _ _ _ _) (setE_sameShape _ _ _ _)

/-- A fold whose steps preserve the shape preserves the shape. -/
theorem foldl_sameShape {T : Type} {F : Mat T → Nat → Mat T}
    (hF : ∀ m j, sameShape (F m j) m) (l : List Nat) (m : Mat T) :
    sameShape (l.foldl F m) m := by
  induction l generalizing m with
  | nil => exact sameShape_refl m
  | cons a l ih =>
    rw [List.foldl_cons]
    exact sameShape_trans (ih (F m a)) (hF m a)

/-- Matrices of the same shape have the same row count. -/
theorem sameShape_nrows {T : Type} {m1 m2 : Mat T} (h : sameShape m1 m2) :
    nrows m1 = nrows m2 :=
  h.1

/-- Matrices of the same shape have the same column count. -/
theorem sameShape_ncols {T : Type} {m1 m2 : Mat T} (h : sameShape m1 m2) :
    ncols m1 = ncols m2 :=
  h.2 0

/-- Two matrices with equally many rows and equal entries everywhere are
equal. -/
theorem matEqOfGetE {T : Type} {m1 m2 : Mat T} (hlen : m1.length = m2.length)
    (h : ∀ i j, getE m1 i j = getE m2 i j) : m1 = m2 := by
  apply List.ext_getElem?
  intro i
  cases h1 : m1[i]? with
  | none =>
    have hle : m1.length ≤ i := List.getElem?_eq_none_iff.mp h1
    rw [List.getElem?_eq_none (by omega)]
  | some r1 =>
    obtain ⟨hi1, -⟩ := List.getElem?_eq_some_iff.mp h1
    cases h2 : m2[i]? with
    | none =>
      have hle : m2.length ≤ i := List.getElem?_eq_none_iff.mp h2
      omega
    | some r2 =>
      congr 1
      apply List.ext_getElem?
      intro j
      have he := h i j
      unfold getE at he
      rw [h1, h2] at he
      simpa using he

/-- A fold over the columns whose step at column `j` rewrites column `j` of
the accumulator through `g` and touches nothing else: after processing
columns `0..n`, each processed column holds `g` of the original column and
every other entry is unchanged. -/
theorem foldl_colStep_getE {T : Type} (F : Mat T → Nat → Mat T)
    (g : (Nat → Option T) → Nat → Option T)
    (hF : ∀ acc j i, getE (F acc j) i j = g (fun r => getE acc r j) i)
    (hFne : ∀ acc j i j2, j2 ≠ j → getE (F acc j) i j2 = getE acc i j2)
    (m : Mat T) (n : Nat) (i j : Nat) :
    getE ((List.range n).foldl F m) i j =
      if j < n then g (fun r => getE m r j) i else getE m i j := by
  induction n generalizing i j with
  | zero => simp
  | succ n ih =>
    rw [List.range_succ, List.foldl_append, List.foldl_cons, List.foldl_nil]
    by_cases hj : j = n
    · subst hj
      rw [hF]
      have hcol : (fun r => getE ((List.range j).foldl F m) r j) =
          (fun r => getE m r j) := by
        funext r
        rw [ih r j, if_neg (Nat.lt_irrefl j)]
      rw [hcol, if_pos (Nat.lt_succ_self j)]
    · rw [hFne _ _ _ _ hj, ih i j]
      by_cases hjn : j < n
      · rw [if_pos hjn, if_pos (by omega)]
      · rw [if_neg hjn, if_neg (by omega)]

/-- A row-mul step rewrites the scaled row's entry of its column through
`mulVal` and leaves the other rows of that column unchanged. -/
theorem rowMulStep_getE_col {T : Type} [Mul T] (i0 : Nat) (f : T)
    (acc : Mat T) (j i : Nat) :
    getE (rowMulStep i0 f acc j) i j =
      if i = i0 then mulVal f (getE acc i0 j) else getE acc i j := by
  by_cases hi : i = i0
  · subst hi
    rw [if_pos rfl]
    cases hv : getE acc i j with
    | none => simp only [rowMulStep, hv, mulVal]
    | some v =>
      simp only [rowMulStep, hv, mulVal]
      exact getE_setE_same _ (by rw [hv]; rfl)
  · rw [if_neg hi]
    cases hv : getE acc i0 j with
    | none => simp only [rowMulStep, hv]
    | some v =>
      simp only [rowMulStep, hv]
      exact getE_setE_ne _ _ _ _ _ _ (fun hc => hi hc.1.symm)

/-- A row-mul step leaves every other column unchanged. -/
theorem rowMulStep_getE_ne {T : Type} [Mul T] (i0 : Nat) (f : T)
    (acc : Mat T) (j i j2 : Nat) (h : j2 ≠ j) :
    getE (rowMulStep i0 f acc j) i j2 = getE acc i j2 := by
  cases hv : getE acc i0 j with
  | none => simp only [rowMulStep, hv]
  | some v =>
    simp only [rowMulStep, hv]
    exact getE_setE_ne _ _ _ _ _ _ (fun hc => h hc.2.symm)

/-- A row-add step rewrites the inout entry of its column through `addVal`
and leaves the other rows of that column unchanged. -/
theorem rowAddStep_getE_col {T : Type} [Mul T] [Add T] (i1 i2 : Nat) (f : T)
    (acc : Mat T) (j i : Nat) :
    getE (rowAddStep i1 i2 f acc j) i j =
      if i = i1 then addVal f (getE acc i1 j) (getE acc i2 j)
      else getE acc i j := by
  by_cases hi : i = i1
  · subst hi
    rw [if_pos rfl]
    cases hs : getE acc i2 j with
    | none => cases ht : getE acc i j <;> simp only [rowAddStep, hs, ht, addVal]
    | some s =>
      cases ht : getE acc i j with
      | none => simp only [rowAddStep, hs, ht, addVal]
      | some t =>
        simp only [rowAddStep, hs, ht, addVal]
        exact getE_setE_same _ (by rw [ht]; rfl)
  · rw [if_neg hi]
    cases hs : getE acc i2 j with
    | none => cases ht : getE acc i1 j <;> simp only [rowAddStep, hs, ht]
    | some s =>
      cases ht : getE acc i1 j with
      | none => simp only [rowAddStep, hs, ht]
      | some t =>
        simp only [rowAddStep, hs, ht]
        exact getE_setE_ne _ _ _ _ _ _ (fun hc => hi hc.1.symm)

/-- A row-add step leaves every other column unchanged. -/
theorem rowAddStep_getE_ne {T : Type} [Mul T] [Add T] (i1 i2 : Nat) (f : T)
    (acc : Mat T) (j i j2 : Nat) (h : j2 ≠ j) :
    getE (rowAddStep i1 i2 f acc j) i j2 = getE acc i j2 := by
  cases hs : getE acc i2 j with
  | none => cases ht : getE acc i1 j <;> simp only [rowAddStep, hs, ht]
  | some s =>
    cases ht : getE acc i1 j with
    | none => simp only [rowAddStep, hs, ht]
    | some t =>
      simp only [rowAddStep, hs, ht]
      exact getE_setE_ne _ _ _ _ _ _ (fun hc => h hc.2.symm)

/-- A swap step rewrites the two exchanged entries of its column through
`xchgVal1` / `xchgVal2` and leaves the other rows of that column
unchanged. -/
theorem rowXchgStep_getE_col {T : Type} (i1 i2 : Nat) (acc : Mat T)
    (j i : Nat) :
    getE (rowXchgStep i1 i2 acc j) i j =
      if i = i1 then xchgVal1 (getE acc i1 j) (getE acc i2 j)
      else if i = i2 then xchgVal2 (getE acc i1 j) (getE acc i2 j)
      else getE acc i j := by
  cases ha : getE acc i1 j with
  | none =>
    cases hb : getE acc i2 j with
    | none =>
      simp only [rowXchgStep, swapE, ha, hb, xchgVal1, xchgVal2]
      split_ifs with h1 h2
      · rw [h1, ha]
      · rw [h2, hb]
      · rfl
    | some b =>
      simp only [rowXchgStep, swapE, ha, hb, xchgVal1, xchgVal2]
      split_ifs with h1 h2
      · rw [h1, ha]
      · rw [h2, hb]
      · rfl
  | some a =>
    cases hb : getE acc i2 j with
    | none =>
      simp only [rowXchgStep, swapE, ha, hb, xchgVal1, xchgVal2]
      split_ifs with h1 h2
      · rw [h1, ha]
      · rw [h2, hb]
      · rfl
    | some b =>
      simp only [rowXchgStep, swapE, ha, hb, xchgVal1, xchgVal2]
      by_cases hi2 : i = i2
      · rw [hi2]
        have hsome : (getE (setE acc i1 j b) i2 j).isSome := by
          by_cases h12 : i1 = i2
          · rw [← h12, getE_setE_same _ (by rw [ha]; rfl)]
            rfl
          · rw [getE_setE_ne _ _ _ _ _ _ (fun hc => h12 hc.1), hb]
            rfl
        rw [getE_setE_same _ hsome]
        by_cases h21 : i2 = i1
        · rw [if_pos h21]
          rw [h21] at hb
          rw [ha] at hb
          exact hb
        · rw [if_neg h21, if_pos rfl]
      · by_cases hi1 : i = i1
        · rw [hi1, if_pos rfl]
          have hne : ¬(i2 = i1 ∧ j = j) := fun hc => hi2 (hi1.trans hc.1.symm)
          rw [getE_setE_ne _ _ _ _ _ _ hne,
            getE_setE_same _ (by rw [ha]; rfl)]
        · rw [if_neg hi1, if_neg hi2,
            getE_setE_ne _ _ _ _ _ _ (fun hc => hi2 hc.1.symm),
            getE_setE_ne _ _ _ _ _ _ (fun hc => hi1 hc.1.symm)]

/-- A swap step leaves every other column unchanged. -/
theorem rowXchgStep_getE_ne {T : Type} (i1 i2 : Nat) (acc : Mat T)
    (j i j2 : Nat) (h : j2 ≠ j) :
    getE (rowXchgStep i1 i2 acc j) i j2 = getE acc i j2 := by
  cases ha : getE acc i1 j with
  | none => cases hb : getE acc i2 j <;> simp only [rowXchgStep, swapE, ha, hb]
  | some a =>
    cases hb : getE acc i2 j with
    | none => simp only [rowXchgStep, swapE, ha, hb]
    | some b =>
      simp only [rowXchgStep, swapE, ha, hb]
      rw [getE_setE_ne _ _ _ _ _ _ (fun hc => h hc.2.symm),
        getE_setE_ne _ _ _ _ _ _ (fun hc => h hc.2.symm)]

/-- A row-mul step preserves the shape. -/
theorem rowMulStep_sameShape {T : Type} [Mul T] (i0 : Nat) (f : T)
    (acc : Mat T) (j : Nat) : sameShape (rowMulStep i0 f acc j) acc := by
  cases hv : getE acc i0 j with
  | none => simp only [rowMulStep, hv]; exact sameShape_refl acc
  | some v => simp only [rowMulStep, hv]; exact setE_sameShape _ _ _ _

/-- A row-add step preserves the shape. -/
theorem rowAddStep_sameShape {T : Type} [Mul T] [Add T] (i1 i2 : Nat) (f : T)
    (acc : Mat T) (j : Nat) : sameShape (rowAddStep i1 i2 f acc j) acc := by
  cases hs : getE acc i2 j with
  | none =>
    cases ht : getE acc i1 j <;> simp only [rowAddStep, hs, ht] <;>
      exact sameShape_refl acc
  | some s =>
    cases ht : getE acc i1 j with
    | none => simp only [rowAddStep, hs, ht]; exact sameShape_refl acc
    | some t => simp only [rowAddStep, hs, ht]; exact setE_sameShape _ _ _ _

/-- A swap step preserves the shape. -/
theorem rowXchgStep_sameShape {T : Type} (i1 i2 : Nat) (acc : Mat T)
    (j : Nat) : sameShape (rowXchgStep i1 i2 acc j) acc :=
  swapE_sameShape acc i1 j i2 j

/-- `row_xchg_unchecked` preserves the shape of the matrix. -/
theorem rowXchg_unchecked_sameShape {T : Type} (po : RowXchg) (m : Mat T) :
    sameShape (po.perform_unchecked m) m :=
  foldl_sameShape (rowXchgStep_sameShape po.row_zbi_1 po.row_zbi_2) _ m

/-- `row_add_unchecked` preserves the shape of the matrix. -/
theorem rowAdd_unchecked_sameShape {T : Type} [Mul T] [Add T]
    (po : RowAdd T) (m : Mat T) : sameShape (po.perform_unchecked m) m :=
  foldl_sameShape (rowAddStep_sameShape po.inout_row_zbi po.in_row_zbi
    po.factor) _ m

/-- `row_mul_unchecked` preserves the shape of the matrix. -/
theorem rowMul_unchecked_sameShape {T : Type} [Mul T] (po : RowMul T)
    (m : Mat T) : sameShape (po.perform_unchecked m) m :=
  foldl_sameShape (rowMulStep_sameShape po.row_zbi po.factor) _ m

/-- Entry-level behaviour of `row_xchg_unchecked`: inside the column range
the two exchanged rows hold the swapped values, every other entry is
unchanged. -/
theorem rowXchg_unchecked_getE {T : Type} (po : RowXchg) (m : Mat T)
    (i j : Nat) :
    getE (po.perform_unchecked m) i j =
      if j < ncols m then
        if i = po.row_zbi_1
        then xchgVal1 (getE m po.row_zbi_1 j) (getE m po.row_zbi_2 j)
        else if i = po.row_zbi_2
        then xchgVal2 (getE m po.row_zbi_1 j) (getE m po.row_zbi_2 j)
        else getE m i j
      else getE m i j :=
  foldl_colStep_getE _
    (fun col r =>
      if r = po.row_zbi_1 then xchgVal1 (col po.row_zbi_1) (col po.row_zbi_2)
      else if r = po.row_zbi_2
      then xchgVal2 (col po.row_zbi_1) (col po.row_zbi_2)
      else col r)
    (fun acc j i => rowXchgStep_getE_col _ _ acc j i)
    (fun acc j i j2 h => rowXchgStep_getE_ne _ _ acc j i j2 h)
    m (ncols m) i j

/-- Entry-level behaviour of `row_add_unchecked`: inside the column range
the inout row holds `entry + entry_in * factor` computed from the
pre-mutation entries, every other entry is unchanged. -/
theorem rowAdd_unchecked_getE {T : Type} [Mul T] [Add T] (po : RowAdd T)
    (m : Mat T) (i j : Nat) :
    getE (po.perform_unchecked m) i j =
      if j < ncols m then
        if i = po.inout_row_zbi
        then addVal po.factor (getE m po.inout_row_zbi j)
          (getE m po.in_row_zbi j)
        else getE m i j
      else getE m i j :=
  foldl_colStep_getE _
    (fun col r =>
      if r = po.inout_row_zbi
      then addVal po.factor (col po.inout_row_zbi) (col po.in_row_zbi)
      else col r)
    (fun acc j i => rowAddStep_getE_col _ _ _ acc j i)
    (fun acc j i j2 h => rowAddStep_getE_ne _ _ _ acc j i j2 h)
    m (ncols m) i j

/-- Entry-level behaviour of `row_mul_unchecked`: inside the column range
the scaled row holds `entry * factor`, every other entry is unchanged. -/
theorem rowMul_unchecked_getE {T : Type} [Mul T] (po : RowMul T) (m : Mat T)
    (i j : Nat) :
    getE (po.perform_unchecked m) i j =
      if j < ncols m then
        if i = po.row_zbi then mulVal po.factor (getE m po.row_zbi j)
        else getE m i j
      else getE m i j :=
  foldl_colStep_getE _
    (fun col r =>
      if r = po.row_zbi then mulVal po.factor (col po.row_zbi) else col r)
    (fun acc j i => rowMulStep_getE_col _ _ acc j i)
    (fun acc j i j2 h => rowMulStep_getE_ne _ _ acc j i j2 h)
    m (ncols m) i j

/-- Swapping a column pair twice restores the first entry. -/
theorem xchgVal_invol1 {T : Type} (a b : Option T) :
    xchgVal1 (xchgVal1 a b) (xchgVal2 a b) = a := by
  cases a <;> cases b <;> rfl

/-- Swapping a column pair twice restores the second entry. -/
theorem xchgVal_invol2 {T : Type} (a b : Option T) :
    xchgVal2 (xchgVal1 a b) (xchgVal2 a b) = b := by
  cases a <;> cases b <;> rfl

/-- A self-swap leaves the first entry unchanged. -/
theorem xchgVal1_self {T : Type} (a : Option T) : xchgVal1 a a = a := by
  cases a <;> rfl

/-- A self-swap leaves the second entry unchanged. -/
theorem xchgVal2_self {T : Type} (a : Option T) : xchgVal2 a a = a := by
  cases a <;> rfl

/-- Adding `src * f` and then `src * (-f)` into an entry restores it, for an
unchanged source entry. -/
theorem addVal_inv {T : Type} [Ring T] (f : T) (a b : Option T) :
    addVal (-f) (addVal f a b) b = a := by
  cases a with
  | none => cases b <;> rfl
  | some t =>
    cases b with
    | none => rfl
    | some s =>
      show some (t + s * f + s * -f) = some t
      congr 1
      rw [mul_neg, add_neg_cancel_right]

/-- `rowXchg_unchecked_getE` with the parameter object spelled out. -/
theorem rowXchg_unchecked_getE2 {T : Type} (i1 i2 : Nat) (m : Mat T)
    (i j : Nat) :
    getE (RowXchg.perform_unchecked ⟨i1, i2⟩ m) i j =
      if j < ncols m then
        if i = i1 then xchgVal1 (getE m i1 j) (getE m i2 j)
        else if i = i2 then xchgVal2 (getE m i1 j) (getE m i2 j)
        else getE m i j
      else getE m i j :=
  rowXchg_unchecked_getE ⟨i1, i2⟩ m i j

/-- `rowAdd_unchecked_getE` with the parameter object spelled out. -/
theorem rowAdd_unchecked_getE2 {T : Type} [Mul T] [Add T] (i1 i2 : Nat)
    (f : T) (m : Mat T) (i j : Nat) :
    getE (RowAdd.perform_unchecked ⟨i1, i2, f⟩ m) i j =
      if j < ncols m then
        if i = i1 then addVal f (getE m i1 j) (getE m i2 j)
        else getE m i j
      else getE m i j :=
  rowAdd_unchecked_getE ⟨i1, i2, f⟩ m i j

/-- `rowMul_unchecked_getE` with the parameter object spelled out. -/
theorem rowMul_unchecked_getE2 {T : Type} [Mul T] (i0 : Nat) (f : T)
    (m : Mat T) (i j : Nat) :
    getE (RowMul.perform_unchecked ⟨i0, f⟩ m) i j =
      if j < ncols m then
        if i = i0 then mulVal f (getE m i0 j)
        else getE m i j
      else getE m i j :=
  rowMul_unchecked_getE ⟨i0, f⟩ m i j

/-- C1: for every matrix, valid target/source rows and factor,
`RowAdd::perform_unchecked` sets each target entry to
`target + source * factor` computed from the pre-mutation entries (also
when target and source alias), and on the 2x3 matrix `[[1,2,3],[4,5,6]]`
with target 1, source 0, factor -4 it yields `[[1,2,3],[0,-3,-6]]`. -/
theorem claim_C1 :
    (∀ (T : Type) [Mul T] [Add T] (m : Mat T) (po : RowAdd T) (j : Nat)
      (t s : T), j < ncols m → getE m po.inout_row_zbi j = some t →
      getE m po.in_row_zbi j = some s →
      getE (po.perform_unchecked m) po.inout_row_zbi j =
        some (t + s * po.factor)) ∧
    RowAdd.perform_unchecked ⟨1, 0, (-4 : Int)⟩ [[1, 2, 3], [4, 5, 6]] =
      [[1, 2, 3], [0, -3, -6]] := by
  constructor
  · intro T instM instA m po j t s hj ht hs
    rw [rowAdd_unchecked_getE, if_pos hj, if_pos rfl, ht, hs]
    rfl
  · decide

/-- C1 witness: the general clause applied to the concrete 2x3 scenario at
column 0. -/
theorem claim_C1_witness :
    getE (RowAdd.perform_unchecked ⟨1, 0, (-4 : Int)⟩ [[1, 2, 3], [4, 5, 6]])
      1 0 = some (4 + 1 * (-4 : Int)) :=
  claim_C1.1 Int [[1, 2, 3], [4, 5, 6]] ⟨1, 0, -4⟩ 0 4 1 (by decide)
    (by decide) (by decide)

/-- C2: for every operation and matrix, the checked variant leaves the
matrix unchanged whenever it returns an error (validation happens strictly
before any mutation) and applies the full unchecked mutation whenever it
returns success, for every input including out-of-range indices. -/
theorem claim_C2 :
    ∀ (T : Type) [Mul T] [Add T] (m : Mat T) (poX : RowXchg)
      (poA : RowAdd T) (poM : RowMul T),
      ((poX.perform m).1.isSome → (poX.perform m).2 = m) ∧
      ((poX.perform m).1 = none →
        (poX.perform m).2 = poX.perform_unchecked m) ∧
      ((poA.perform m).1.isSome → (poA.perform m).2 = m) ∧
      ((poA.perform m).1 = none →
        (poA.perform m).2 = poA.perform_unchecked m) ∧
      ((poM.perform m).1.isSome → (poM.perform m).2 = m) ∧
      ((poM.perform m).1 = none →
        (poM.perform m).2 = poM.perform_unchecked m) := by
  intro T instM instA m poX poA poM
  refine ⟨?_, ?_, ?_, ?_, ?_, ?_⟩
  · intro h
    cases hv : poX.validate m with
    | some e => simp [RowXchg.perform, hv]
    | none => simp [RowXchg.perform, hv] at h
  · intro h
    cases hv : poX.validate m with
    | some e => simp [RowXchg.perform, hv] at h
    | none => simp [RowXchg.perform, hv]
  · intro h
    cases hv : poA.validate m with
    | some e => simp [RowAdd.perform, hv]
    | none => simp [RowAdd.perform, hv] at h
  · intro h
    cases hv : poA.validate m with
    | some e => simp [RowAdd.perform, hv] at h
    | none => simp [RowAdd.perform, hv]
  · intro h
    cases hv : poM.validate m with
    | some e => simp [RowMul.perform, hv]
    | none => simp [RowMul.perform, hv] at h
  · intro h
    cases hv : poM.validate m with
    | some e => simp [RowMul.perform, hv] at h
    | none => simp [RowMul.perform, hv]

/-- C2 witness: an out-of-range row exchange reports an error and leaves
the concrete matrix unchanged. -/
theorem claim_C2_witness :
    (RowXchg.perform ⟨0, 5⟩ ([[1, 2], [3, 4]] : Mat Int)).2 =
      [[1, 2], [3, 4]] :=
  (claim_C2 Int [[1, 2], [3, 4]] ⟨0, 5⟩ ⟨0, 0, 0⟩ ⟨0, 0⟩).1 (by decide)

/-- C3: for the two-index operations, validation classifies the index pair
as both / first-only / second-only out of bounds or success, always
carrying the literal index pair; for row addition the first role is the
inout (target) row and the second the in (source) row; and a row exchange
on a 2-row matrix with indices (0, 5) reports the second index, carrying
`(0, 5)`. -/
theorem claim_C3 :
    (∀ (T : Type) (m : Mat T) (i1 i2 : Nat) (f : T),
      (i1 ≥ nrows m ∧ i2 ≥ nrows m →
        RowXchg.validate ⟨i1, i2⟩ m = some (.BothIdcesOutOfBounds (i1, i2)) ∧
        RowAdd.validate ⟨i1, i2, f⟩ m =
          some (.BothIdcesOutOfBounds (i1, i2))) ∧
      (i1 ≥ nrows m ∧ i2 < nrows m →
        RowXchg.validate ⟨i1, i2⟩ m = some (.FirstIdxOutOfBounds (i1, i2)) ∧
        RowAdd.validate ⟨i1, i2, f⟩ m =
          some (.FirstIdxOutOfBounds (i1, i2))) ∧
      (i1 < nrows m ∧ i2 ≥ nrows m →
        RowXchg.validate ⟨i1, i2⟩ m = some (.SecondIdxOutOfBounds (i1, i2)) ∧
        RowAdd.validate ⟨i1, i2, f⟩ m =
          some (.SecondIdxOutOfBounds (i1, i2))) ∧
      (i1 < nrows m ∧ i2 < nrows m →
        RowXchg.validate ⟨i1, i2⟩ m = none ∧
        RowAdd.validate ⟨i1, i2, f⟩ m = none)) ∧
    (RowXchg.perform ⟨0, 5⟩ ([[1, 2], [3, 4]] : Mat Int)).1 =
      some (.SecondIdxOutOfBounds (0, 5)) := by
  constructor
  · intro T m i1 i2 f
    refine ⟨?_, ?_, ?_, ?_⟩
    · rintro ⟨h1, h2⟩
      constructor <;> simp [RowXchg.validate, RowAdd.validate, h1, h2]
    · rintro ⟨h1, h2⟩
      constructor <;>
        simp [RowXchg.validate, RowAdd.validate, h1, Nat.not_le.mpr h2]
    · rintro ⟨h1, h2⟩
      constructor <;>
        simp [RowXchg.validate, RowAdd.validate, h2, Nat.not_le.mpr h1]
    · rintro ⟨h1, h2⟩
      constructor <;>
        simp [RowXchg.validate, RowAdd.validate, Nat.not_le.mpr h1,
          Nat.not_le.mpr h2]
  · decide

/-- C3 witness: the both-out-of-bounds clause applied to a concrete 1-row
matrix with indices (3, 7). -/
theorem claim_C3_witness :
    RowXchg.validate ⟨3, 7⟩ ([[1]] : Mat Int) =
      some (.BothIdcesOutOfBounds (3, 7)) :=
  ((claim_C3.1 Int [[1]] 3 7 0).1 (by decide)).1

/-- C4: the checked row-scale returns the single-variant error carrying the
offending index, leaving the matrix unchanged, exactly when the row is out
of bounds, and otherwise succeeds and multiplies every entry of that row in
place by the factor; on the 2x2 matrix `[[1,2],[3,4]]` with row 0 and
factor 2 it yields `[[2,4],[3,4]]`. -/
theorem claim_C4 :
    (∀ (T : Type) [Mul T] (m : Mat T) (po : RowMul T),
      (po.row_zbi ≥ nrows m → po.perform m = (some ⟨po.row_zbi⟩, m)) ∧
      (po.row_zbi < nrows m → (po.perform m).1 = none ∧
        ∀ j v, j < ncols m → getE m po.row_zbi j = some v →
          getE (po.perform m).2 po.row_zbi j = some (v * po.factor))) ∧
    RowMul.perform ⟨0, (2 : Int)⟩ [[1, 2], [3, 4]] =
      (none, [[2, 4], [3, 4]]) := by
  constructor
  · intro T instM m po
    constructor
    · intro h
      simp [RowMul.perform, RowMul.validate, h]
    · intro h
      have hv : po.validate m = none := by
        simp [RowMul.validate, Nat.not_le.mpr h]
      constructor
      · simp [RowMul.perform, hv]
      · intro j v hj hval
        have h2 : (po.perform m).2 = po.perform_unchecked m := by
          simp [RowMul.perform, hv]
        rw [h2, rowMul_unchecked_getE, if_pos hj, if_pos rfl, hval]
        rfl
  · decide

/-- C4 witness: the success clause applied to the concrete 2x2 scenario at
entry (0, 1). -/
theorem claim_C4_witness :
    (RowMul.perform ⟨0, (2 : Int)⟩ [[1, 2], [3, 4]]).1 = none ∧
      getE (RowMul.perform ⟨0, (2 : Int)⟩ [[1, 2], [3, 4]]).2 0 1 =
        some (2 * 2 : Int) :=
  ⟨((claim_C4.1 Int [[1, 2], [3, 4]] ⟨0, 2⟩).2 (by decide)).1,
    ((claim_C4.1 Int [[1, 2], [3, 4]] ⟨0, 2⟩).2 (by decide)).2 1 2 (by decide)
      (by decide)⟩

/-- C5: `RowXchg::perform_unchecked` swaps, for every column, the entries
of the two rows; a self-swap is a no-op; and on the 2x2 matrix
`[[1,2],[3,4]]` exchanging rows 0 and 1 yields `[[3,4],[1,2]]`. -/
theorem claim_C5 :
    (∀ (T : Type) (m : Mat T) (po : RowXchg) (j : Nat) (a b : T),
      j < ncols m → getE m po.row_zbi_1 j = some a →
      getE m po.row_zbi_2 j = some b →
      getE (po.perform_unchecked m) po.row_zbi_1 j = some b ∧
      getE (po.perform_unchecked m) po.row_zbi_2 j = some a) ∧
    (∀ (T : Type) (m : Mat T) (i : Nat),
      RowXchg.perform_unchecked ⟨i, i⟩ m = m) ∧
    RowXchg.perform_unchecked ⟨0, 1⟩ ([[1, 2], [3, 4]] : Mat Int) =
      [[3, 4], [1, 2]] := by
  refine ⟨?_, ?_, by decide⟩
  · intro T m po j a b hj ha hb
    constructor
    · rw [rowXchg_unchecked_getE, if_pos hj, if_pos rfl, ha, hb]
      rfl
    · rw [rowXchg_unchecked_getE, if_pos hj]
      by_cases h21 : po.row_zbi_2 = po.row_zbi_1
      · have hab : some a = some b := by rw [← ha, ← hb, h21]
        rw [if_pos h21, ha, hb]
        exact hab.symm
      · rw [if_neg h21, if_pos rfl, ha, hb]
        rfl
  · intro T m i
    apply matEqOfGetE (rowXchg_unchecked_sameShape ⟨i, i⟩ m).1
    intro a b
    rw [rowXchg_unchecked_getE2]
    by_cases hb : b < ncols m
    · rw [if_pos hb]
      by_cases hai : a = i
      · rw [if_pos hai, hai]
        exact xchgVal1_self _
      · rw [if_neg hai, if_neg hai]
    · rw [if_neg hb]

/-- C5 witness: the swap clause applied to the concrete 2x2 scenario at
column 0. -/
theorem claim_C5_witness :
    getE (RowXchg.perform_unchecked ⟨0, 1⟩ ([[1, 2], [3, 4]] : Mat Int)) 0 0 =
      some (3 : Int) ∧
    getE (RowXchg.perform_unchecked ⟨0, 1⟩ ([[1, 2], [3, 4]] : Mat Int)) 1 0 =
      some (1 : Int) :=
  claim_C5.1 Int [[1, 2], [3, 4]] ⟨0, 1⟩ 0 1 3 (by decide) (by decide)
    (by decide)

/-- C6: exchanging the same pair of distinct valid rows twice restores the
matrix (row exchange is an involution). -/
theorem claim_C6 :
    ∀ (T : Type) (m : Mat T) (i j : Nat), i ≠ j → i < nrows m →
      j < nrows m →
      RowXchg.perform_unchecked ⟨i, j⟩ (RowXchg.perform_unchecked ⟨i, j⟩ m)
        = m := by
  intro T m i j hne hi hj
  apply matEqOfGetE
  · exact (rowXchg_unchecked_sameShape ⟨i, j⟩ _).1.trans
      (rowXchg_unchecked_sameShape ⟨i, j⟩ m).1
  intro a b
  rw [rowXchg_unchecked_getE2 i j (RowXchg.perform_unchecked ⟨i, j⟩ m) a b,
    sameShape_ncols (rowXchg_unchecked_sameShape ⟨i, j⟩ m),
    rowXchg_unchecked_getE2 i j m i b, rowXchg_unchecked_getE2 i j m j b,
    rowXchg_unchecked_getE2 i j m a b]
  by_cases hb : b < ncols m
  · simp only [if_pos hb, if_pos rfl, if_neg (Ne.symm hne)]
    by_cases hai : a = i
    · rw [if_pos hai, hai]
      exact xchgVal_invol1 _ _
    · rw [if_neg hai]
      by_cases haj : a = j
      · rw [if_pos haj, haj]
        exact xchgVal_invol2 _ _
      · rw [if_neg haj, if_neg hai, if_neg haj]
  · simp only [if_neg hb]

/-- C6 witness: the involution applied to the concrete 2x2 matrix
`[[1,2],[3,4]]` and rows 0, 1. -/
theorem claim_C6_witness :
    RowXchg.perform_unchecked ⟨0, 1⟩
      (RowXchg.perform_unchecked ⟨0, 1⟩ ([[1, 2], [3, 4]] : Mat Int)) =
      [[1, 2], [3, 4]] :=
  claim_C6 Int [[1, 2], [3, 4]] 0 1 (by decide) (by decide) (by decide)

/-- C7 counterexample: with target = source = 0 (a valid index pair for a
1-row matrix) and factor 1 over the integers, row-add followed by row-add
with the negated factor does not restore the matrix: `[[1]]` becomes
`[[2]]` and then `[[0]]`. -/
theorem claim_C7_counterexample :
    0 < nrows ([[1]] : Mat Int) ∧
    RowAdd.perform_unchecked ⟨0, 0, (-1 : Int)⟩
      (RowAdd.perform_unchecked ⟨0, 0, (1 : Int)⟩ [[1]]) ≠
      ([[1]] : Mat Int) := by
  constructor
  · decide
  · decide

/-- C7 (amended): for every matrix, every pair of valid *distinct* target
and source rows and every factor, row-add with the factor followed by
row-add with the negated factor restores the matrix. -/
theorem claim_C7_amended :
    ∀ (T : Type) [Ring T] (m : Mat T) (i1 i2 : Nat) (f : T), i1 ≠ i2 →
      i1 < nrows m → i2 < nrows m →
      RowAdd.perform_unchecked ⟨i1, i2, -f⟩
        (RowAdd.perform_unchecked ⟨i1, i2, f⟩ m) = m := by
  intro T instR m i1 i2 f hne h1 h2
  apply matEqOfGetE
  · exact (rowAdd_unchecked_sameShape ⟨i1, i2, -f⟩ _).1.trans
      (rowAdd_unchecked_sameShape ⟨i1, i2, f⟩ m).1
  intro a b
  rw [rowAdd_unchecked_getE2 i1 i2 (-f)
      (RowAdd.perform_unchecked ⟨i1, i2, f⟩ m) a b,
    sameShape_ncols (rowAdd_unchecked_sameShape ⟨i1, i2, f⟩ m),
    rowAdd_unchecked_getE2 i1 i2 f m i1 b,
    rowAdd_unchecked_getE2 i1 i2 f m i2 b,
    rowAdd_unchecked_getE2 i1 i2 f m a b]
  by_cases hb : b < ncols m
  · simp only [if_pos hb, if_pos rfl, if_neg (Ne.symm hne)]
    by_cases hai : a = i1
    · rw [if_pos hai, hai]
      exact addVal_inv f _ _
    · rw [if_neg hai, if_neg hai]
  · simp only [if_neg hb]

/-- C7 amended witness: the inverse property applied to the concrete 2x2
matrix `[[1,2],[3,4]]`, target 1, source 0, factor 4. -/
theorem claim_C7_amended_witness :
    RowAdd.perform_unchecked ⟨1, 0, (-4 : Int)⟩
      (RowAdd.perform_unchecked ⟨1, 0, (4 : Int)⟩ [[1, 2], [3, 4]]) =
      ([[1, 2], [3, 4]] : Mat Int) :=
  claim_C7_amended Int [[1, 2], [3, 4]] 1 0 4 (by decide) (by decide)
    (by decide)

/-- C8: validation of every operation never mutates the matrix (it is a
pure function of it) and its result depends only on the embedded indices
and the row count: two matrices with equal row counts — of arbitrary entry
types, entries, column counts, and with arbitrary factors — validate
identically. -/
theorem claim_C8 :
    ∀ (T1 T2 : Type) (m1 : Mat T1) (m2 : Mat T2) (i1 i2 i : Nat) (f1 : T1)
      (f2 : T2), nrows m1 = nrows m2 →
      RowXchg.validate ⟨i1, i2⟩ m1 = RowXchg.validate ⟨i1, i2⟩ m2 ∧
      RowAdd.validate ⟨i1, i2, f1⟩ m1 = RowAdd.validate ⟨i1, i2, f2⟩ m2 ∧
      RowMul.validate ⟨i, f1⟩ m1 = RowMul.validate ⟨i, f2⟩ m2 := by
  intro T1 T2 m1 m2 i1 i2 i f1 f2 h
  refine ⟨?_, ?_, ?_⟩ <;>
    simp only [RowXchg.validate, RowAdd.validate, RowMul.validate, h]

/-- C8 witness: validation agrees on two 1-row matrices of different entry
types, entry values and column counts, with different factors. -/
theorem claim_C8_witness :
    RowXchg.validate ⟨0, 1⟩ ([[1]] : Mat Int) =
      RowXchg.validate ⟨0, 1⟩ ([[true, false]] : Mat Bool) :=
  (claim_C8 Int Bool [[1]] [[true, false]] 0 1 0 0 true (by decide)).1

/-- C9: wrapping a matrix into the linear-system representation and
unwrapping it returns exactly the same matrix value. -/
theorem claim_C9 :
    ∀ (T : Type) (m : Mat T), (MatrixReprOfLinEq.new m).to_matrix = m :=
  fun _ _ => rfl

/-- C10: every operation, checked or unchecked, preserves the row count
and the column count of the matrix. -/
theorem claim_C10 :
    ∀ (T : Type) [Mul T] [Add T] (m : Mat T) (poX : RowXchg)
      (poA : RowAdd T) (poM : RowMul T),
      (nrows (poX.perform_unchecked m) = nrows m ∧
        ncols (poX.perform_unchecked m) = ncols m) ∧
      (nrows (poA.perform_unchecked m) = nrows m ∧
        ncols (poA.perform_unchecked m) = ncols m) ∧
      (nrows (poM.perform_unchecked m) = nrows m ∧
        ncols (poM.perform_unchecked m) = ncols m) ∧
      (nrows (poX.perform m).2 = nrows m ∧
        ncols (poX.perform m).2 = ncols m) ∧
      (nrows (poA.perform m).2 = nrows m ∧
        ncols (poA.perform m).2 = ncols m) ∧
      (nrows (poM.perform m).2 = nrows m ∧
        ncols (poM.perform m).2 = ncols m) := by
  intro T instM instA m poX poA poM
  refine ⟨⟨sameShape_nrows (rowXchg_unchecked_sameShape poX m),
    sameShape_ncols (rowXchg_unchecked_sameShape poX m)⟩,
    ⟨sameShape_nrows (rowAdd_unchecked_sameShape poA m),
    sameShape_ncols (rowAdd_unchecked_sameShape poA m)⟩,
    ⟨sameShape_nrows (rowMul_unchecked_sameShape poM m),
    sameShape_ncols (rowMul_unchecked_sameShape poM m)⟩, ?_, ?_, ?_⟩
  · cases hv : poX.validate m with
    | some e =>
      have h2 : (poX.perform m).2 = m := by simp [RowXchg.perform, hv]
      rw [h2]
      exact ⟨rfl, rfl⟩
    | none =>
      have h2 : (poX.perform m).2 = poX.perform_unchecked m := by
        simp [RowXchg.perform, hv]
      rw [h2]
      exact ⟨sameShape_nrows (rowXchg_unchecked_sameShape poX m),
        sameShape_ncols (rowXchg_unchecked_sameShape poX m)⟩
  · cases hv : poA.validate m with
    | some e =>
      have h2 : (poA.perform m).2 = m := by simp [RowAdd.perform, hv]
      rw [h2]
      exact ⟨rfl, rfl⟩
    | none =>
      have h2 : (poA.perform m).2 = poA.perform_unchecked m := by
        simp [RowAdd.perform, hv]
      rw [h2]
      exact ⟨sameShape_nrows (rowAdd_unchecked_sameShape poA m),
        sameShape_ncols (rowAdd_unchecked_sameShape poA m)⟩
  · cases hv : poM.validate m with
    | some e =>
      have h2 : (poM.perform m).2 = m := by simp [RowMul.perform, hv]
      rw [h2]
      exact ⟨rfl, rfl⟩
    | none =>
      have h2 : (poM.perform m).2 = poM.perform_unchecked m := by
        simp [RowMul.perform, hv]
      rw [h2]
      exact ⟨sameShape_nrows (rowMul_unchecked_sameShape poM m),
        sameShape_ncols (rowMul_unchecked_sameShape poM m)⟩

end NalgebraLineq
